import Mathlib

/-!
Verification of the tukaan rich-text buffer engine (tukaan/textbox.py).

The Python module wraps a Tcl/Tk text widget.  The Python-side logic
(clamping, argument dispatch, the dump-stream reconstruction, the
undo/redo loops, the search loop, mark deletion, peer creation) is
embedded faithfully below.  Calls into the Tcl interpreter are the
narrow external interface of the engine; where a claim depends only on
what the Python code does with a Tcl result, the Tcl resolution is a
universally quantified parameter, and where it depends on documented
Tk text-widget semantics (the undo stack, literal search), that
behaviour is modelled explicitly and noted in the doc comment of the
corresponding definition.
-/

deriving instance DecidableEq for Except

namespace Tukaan

/-- A text position, the pair (line, column) of TextIndex.  Raw input pairs
may be negative or overlarge, hence Int components. -/
abbrev Pos := Int × Int

/-- Strict lexicographic order on positions; this is what the comparison
of Python int tuples in TextIndex.__new__ computes, and what the Tcl
compare subcommand used by TextIndex.__lt__ computes on resolved indices. -/
def posLt (a b : Pos) : Prop :=
  a.1 < b.1 ∨ (a.1 = b.1 ∧ a.2 < b.2)

instance (a b : Pos) : Decidable (posLt a b) :=
  inferInstanceAs (Decidable (a.1 < b.1 ∨ (a.1 = b.1 ∧ a.2 < b.2)))

/-- Reflexive closure of posLt. -/
def posLe (a b : Pos) : Prop :=
  posLt a b ∨ a = b

instance (a b : Pos) : Decidable (posLe a b) :=
  inferInstanceAs (Decidable (posLt a b ∨ a = b))

/-- The live buffer of the text widget: its list of lines.  A Tk text
widget always contains at least one line. -/
structure Buffer where
  lines : List String
  nonempty : lines ≠ []

/-- TextBox.start, the position index(0) resolves to: line 1, column 0. -/
def startPos : Pos := (1, 0)

/-- TextBox.end, the position the Tcl index "end - 1 chars" resolves to:
the last line, just after its final character. -/
def endPos (b : Buffer) : Pos :=
  ((b.lines.length : Int), ((b.lines.getLast b.nonempty).length : Int))

/-- The clamping performed both inline in TextIndex.__new__ (when no_check
is false) and by TextIndex.clamp: below start gives start, above end
gives end, otherwise the position is returned unchanged. -/
def clampPos (b : Buffer) (p : Pos) : Pos :=
  if posLt p startPos then startPos
  else if posLt (endPos b) p then endPos b
  else p

/-- The kinds of exception the embedded Python code can raise. -/
inductive PyErr
  | typeError
  | valueError
  | unboundLocalError
  | keyError
  | runtimeError
  | tclError
deriving DecidableEq

/-- The single-argument values TextIndex.__new__ dispatches on with its
isinstance chain.  Tuple elements are modelled as integers, which is the
documented (line, column) shape.  The float and pyNone and other
constructors stand for values of types absent from the isinstance chain. -/
inductive PyValue
  | int (n : Int)
  | tclObj (s : String)
  | str (s : String)
  | icon (s : String)
  | image (s : String)
  | widget (s : String)
  | tup (elems : List Int)
  | float
  | pyNone
  | other
deriving DecidableEq

/-- True exactly when the isinstance chain of TextIndex.__new__ reaches its
final else branch, the raise TypeError. -/
def unrecognizedType : PyValue → Bool
  | .float => true
  | .pyNone => true
  | .other => true
  | _ => false

namespace TextIndex

/-- The two-argument path of TextIndex.__new__ (and the single-argument
2-tuple path): take the raw (line, column) pair and clamp it against the
start and end of the live buffer. -/
def newLineCol (b : Buffer) (line col : Int) : Pos :=
  clampPos b (line, col)

/-- The single-argument path of TextIndex.__new__ with no_check left false.
The argument resolve models the Tcl index subcommand used for strings,
Tcl objects, icons, images and widgets; whatever it returns is clamped.
The int values 0 and 1 resolve to the buffer start, -1 resolves to the
Tcl index "end - 1 chars", which is endPos.  Any other int leaves the
local variables line and col unassigned, so the later clamping
comparison raises UnboundLocalError; a tuple of arity other than two
fails the unpacking with ValueError; a value of a type absent from the
isinstance chain raises TypeError. -/
def new (b : Buffer) (resolve : PyValue → Pos) : PyValue → Except PyErr Pos
  | .int n =>
      if n = 0 ∨ n = 1 then .ok (clampPos b (1, 0))
      else if n = -1 then .ok (clampPos b (endPos b))
      else .error .unboundLocalError
  | .tclObj s => .ok (clampPos b (resolve (.tclObj s)))
  | .str s => .ok (clampPos b (resolve (.str s)))
  | .icon s => .ok (clampPos b (resolve (.icon s)))
  | .image s => .ok (clampPos b (resolve (.image s)))
  | .widget s => .ok (clampPos b (resolve (.widget s)))
  | .tup [line, col] => .ok (clampPos b (line, col))
  | .tup _ => .error .valueError
  | .float => .error .typeError
  | .pyNone => .error .typeError
  | .other => .error .typeError

/-- TextIndex._move and TextIndex._apply_suffix: the widget resolves the
built index string (forward or back by chars, indices or lines, or a
linestart, lineend, wordstart or wordend suffix) to some position, which
from_tcl clamps on construction, and the trailing .clamp() call clamps
again.  The Tcl resolution is the parameter resolved. -/
def move (b : Buffer) (resolved : Pos) : Pos :=
  clampPos b (clampPos b resolved)

end TextIndex

/-- One bound passed to TextRange.__new__: either an already constructed
TextIndex or a raw (line, column) tuple. -/
inductive IndexArg
  | pos (p : Pos)
  | tup (line col : Int)
deriving DecidableEq

/-- The two call shapes of TextRange.__new__: a slice (whose bounds may be
omitted) or a pair of arguments (which may also be None in the source). -/
inductive RangeInput
  | slice (start stop : Option IndexArg)
  | pair (start stop : Option IndexArg)
deriving DecidableEq

namespace TextRange

/-- One bound resolved the way TextRange.__new__ does it: a tuple goes
through TextIndex construction (clamped), an omitted bound defaults to
the given fallback position, and a position is taken as is. -/
def resolveBound (b : Buffer) (fallback : Pos) : Option IndexArg → Pos
  | some (.pos p) => p
  | some (.tup line col) => TextIndex.newLineCol b line col
  | none => fallback

/-- TextRange.__new__: split the input into its start and stop bound,
resolve each, and build the pair in the given order.  No reordering or
normalization is performed by the source. -/
def new (b : Buffer) (input : RangeInput) : Pos × Pos :=
  match input with
  | .slice s e => (resolveBound b startPos s, resolveBound b (endPos b) e)
  | .pair s e => (resolveBound b startPos s, resolveBound b (endPos b) e)

/-- TextRange.__contains__: start <= index < end. -/
def contains (r : Pos × Pos) (p : Pos) : Prop :=
  posLe r.1 p ∧ posLt p r.2

instance (r : Pos × Pos) (p : Pos) : Decidable (contains r p) :=
  inferInstanceAs (Decidable (posLe r.1 p ∧ posLt p r.2))

end TextRange

namespace TextMarks

/-- TextMarks.__delitem__ acting on the mark table (name to position).
Deleting the reserved insertion cursor raises RuntimeError before any
Tcl call, leaving the table untouched; any other name is unset via the
Tcl mark unset subcommand, which silently removes it if present. -/
def delitem (name : String) (marks : List (String × Pos)) :
    List (String × Pos) × Option PyErr :=
  if name = "insert" then (marks, some .runtimeError)
  else (marks.filter (fun kv => !(kv.1 == name)), none)

end TextMarks

/-- The state of the history component: the track_history flag (the Tk
undo option), the Tk-internal undo log modelled as a zipper of buffer
snapshots (groups behind the cursor, the present content, groups ahead
of it), and a count of the warnings issued to the caller so far. -/
structure HistState where
  track : Bool
  past : List String
  present : String
  future : List String
  warnings : Nat
deriving DecidableEq

/-- Modelled Tk behaviour of the Tcl edit undo subcommand (documented in
the Tk text manual): when the undo option is false it does nothing;
otherwise it reverts one edit group, raising a TclError when the undo
stack is empty. -/
def tclEditUndo (s : HistState) : Except PyErr HistState :=
  if s.track = false then .ok s
  else
    match s.past with
    | [] => .error .tclError
    | b :: rest =>
        .ok { s with past := rest, present := b, future := s.present :: s.future }

/-- Modelled Tk behaviour of the Tcl edit redo subcommand, symmetric to
tclEditUndo. -/
def tclEditRedo (s : HistState) : Except PyErr HistState :=
  if s.track = false then .ok s
  else
    match s.future with
    | [] => .error .tclError
    | b :: rest =>
        .ok { s with past := s.present :: s.past, present := b, future := rest }

namespace TextHistory

/-- TextHistory.call_subcommand for the undo subcommand: when
track_history is false a warning is issued first, then the Tcl call is
made regardless.  The Bool records whether the Tcl call succeeded; on
failure the returned state is the one at the moment the TclError was
raised. -/
def callSubcommandUndo (s : HistState) : HistState × Bool :=
  let s1 := if s.track = false then { s with warnings := s.warnings + 1 } else s
  match tclEditUndo s1 with
  | .ok s2 => (s2, true)
  | .error _ => (s1, false)

/-- TextHistory.call_subcommand for the redo subcommand. -/
def callSubcommandRedo (s : HistState) : HistState × Bool :=
  let s1 := if s.track = false then { s with warnings := s.warnings + 1 } else s
  match tclEditRedo s1 with
  | .ok s2 => (s2, true)
  | .error _ => (s1, false)

/-- TextHistory.undo: a loop of number iterations of call_subcommand
inside a try block whose except TclError clause returns; hence the first
failing Tcl call ends the loop with no error escaping to the caller. -/
def undo : Nat → HistState → HistState
  | 0, s => s
  | n + 1, s =>
      match callSubcommandUndo s with
      | (s1, true) => undo n s1
      | (s1, false) => s1

/-- TextHistory.redo, same loop shape as undo. -/
def redo : Nat → HistState → HistState
  | 0, s => s
  | n + 1, s =>
      match callSubcommandRedo s with
      | (s1, true) => redo n s1
      | (s1, false) => s1

end TextHistory

/-- Reference stepper: exactly k single-group undo steps, stopping early
at the end of the log.  Used to state what the undo loop achieves. -/
def undoSteps : Nat → HistState → HistState
  | 0, s => s
  | k + 1, s =>
      match s.past with
      | [] => s
      | b :: rest =>
          undoSteps k { s with past := rest, present := b, future := s.present :: s.future }

/-- Reference stepper for redo, symmetric to undoSteps. -/
def redoSteps : Nat → HistState → HistState
  | 0, s => s
  | k + 1, s =>
      match s.future with
      | [] => s
      | b :: rest =>
          redoSteps k { s with past := s.present :: s.past, present := b, future := rest }

namespace TextBox

/-- Tk literal search primitive, modelled over the buffer text flattened
to a character list: the first offset i with fromIdx <= i < stop at
which the pattern occurs in the text.  Structural in the fuel, which the
wrapper findFrom instantiates with stop - fromIdx. -/
def findFromAux (pat text : List Char) (stop : Nat) : Nat → Nat → Option Nat
  | _, 0 => none
  | i, fuel + 1 =>
      if i < stop then
        if i + pat.length ≤ text.length ∧ pat.isPrefixOf (text.drop i) then some i
        else findFromAux pat text stop (i + 1) fuel
      else none

/-- First match offset of pat in text at or after fromIdx and before stop. -/
def findFrom (pat text : List Char) (fromIdx stop : Nat) : Option Nat :=
  findFromAux pat text stop fromIdx (stop - fromIdx)

/-- The while loop of TextBox.search, materialized: each yielded match is
the pair of its start offset and its matched length, and after a yield
the next Tcl search starts at result + 1 chars.  Structural in the fuel;
the wrapper search instantiates it with stop - start, which suffices
because every match starts at or after the cursor. -/
def searchAux (pat text : List Char) (stop : Nat) : Nat → Nat → List (Nat × Nat)
  | 0, _ => []
  | fuel + 1, start =>
      match findFrom pat text start stop with
      | none => []
      | some i => (i, pat.length) :: searchAux pat text stop fuel (i + 1)

/-- TextBox.search as the list of matches the generator yields between
start and stop. -/
def search (pat text : List Char) (start stop : Nat) : List (Nat × Nat) :=
  searchAux pat text stop (stop - start) start

end TextBox

/-- The event kinds the Tcl dump -all subcommand reports to the add_item
callback of TextBox.content. -/
inductive EvKind
  | text
  | tagon
  | tagoff
  | image
  | mark
  | window
deriving DecidableEq

/-- One event of the chronological dump stream: its kind, its value (tag
name, text run, image name, mark name or window path) and its position. -/
structure DumpEvent where
  kind : EvKind
  value : String
  index : Pos
deriving DecidableEq

/-- One element of the list built by TextBox.content.  Because the source
extends the result list with the tuple (index, converted value), each
non-tag event contributes TWO elements, a bare position and a bare
value; only the tag-close branch inserts an actual pair, the span
constructor.  The mrk constructor carries the mark name that the source
formats into a string, and img and win carry the looked-up object name. -/
inductive ContentElem
  | pos (p : Pos)
  | txt (s : String)
  | img (s : String)
  | mrk (s : String)
  | win (s : String)
  | span (start stop : Pos) (tag : String)
deriving DecidableEq

/-- The state threaded through the dump callback: the result list under
construction and the unclosed_tags dictionary mapping an open tag name
to its opening position and the result index recorded at open time
(newest binding first, as dictionary assignment overwrites). -/
structure DumpState where
  result : List ContentElem
  unclosed : List (String × Pos × Nat)
deriving DecidableEq

/-- Python list.insert semantics: insert before index n, appending at the
end when n is at or beyond the length. -/
def insertAt {α : Type} : Nat → α → List α → List α
  | 0, a, l => a :: l
  | _ + 1, a, [] => [a]
  | n + 1, a, x :: xs => x :: insertAt n a xs

/-- The add_item callback of TextBox.content.  A tagon event only records
the opening position and the current result length.  A tagoff event for
an open tag inserts a (range, tag) pair at the recorded index, the range
built from the clamped open and close positions; a tagoff for a tag that
is not open falls through to the convert dictionary lookup, which has no
tagoff key and raises KeyError.  Every other event extends the list with
the clamped position and the converted value as two separate elements
(the Python expression result += (index, value) extends, not appends). -/
def addItem (b : Buffer) (s : DumpState) (e : DumpEvent) : Except PyErr DumpState :=
  match e.kind with
  | .tagon =>
      .ok { s with unclosed := (e.value, (e.index, s.result.length)) :: s.unclosed }
  | .tagoff =>
      match s.unclosed.find? (fun kv => kv.1 == e.value) with
      | some (_, openPos, insIdx) =>
          .ok { s with
                result := insertAt insIdx
                  (.span (clampPos b openPos) (clampPos b e.index) e.value) s.result }
      | none => .error .keyError
  | .text => .ok { s with result := s.result ++ [.pos (clampPos b e.index), .txt e.value] }
  | .image => .ok { s with result := s.result ++ [.pos (clampPos b e.index), .img e.value] }
  | .mark => .ok { s with result := s.result ++ [.pos (clampPos b e.index), .mrk e.value] }
  | .window => .ok { s with result := s.result ++ [.pos (clampPos b e.index), .win e.value] }

/-- The scan of the whole dump stream, propagating the first exception. -/
def contentGo (b : Buffer) : List DumpEvent → DumpState → Except PyErr DumpState
  | [], s => .ok s
  | e :: es, s =>
      match addItem b s e with
      | .ok s1 => contentGo b es s1
      | .error err => .error err

/-- TextBox.content: run add_item over the chronological event stream
starting from an empty result and no open tags. -/
def content (b : Buffer) (events : List DumpEvent) : Except PyErr (List ContentElem) :=
  (contentGo b events ⟨[], []⟩).map (fun s => s.result)

/-- The observable state of one TextBox relevant to peer creation: its
identity, which box it is a peer of (None for an original), its peer
counter, and the identity of the underlying Tk storage it displays. -/
structure TextBoxSt where
  id : Nat
  peer_of : Option Nat
  peer_count : Nat
  buffer_id : Nat
deriving DecidableEq

namespace TextBox

/-- TextBox.Peer: on an original box (peer_of is None) it increments
peer_count and constructs a new TextBox with _peer_of set to this box;
the Tk peer create subcommand makes the new widget share the same
underlying storage.  On a box that is itself a peer it raises
RuntimeError and creates nothing. -/
def Peer (freshId : Nat) (self : TextBoxSt) : Except PyErr (TextBoxSt × TextBoxSt) :=
  match self.peer_of with
  | none =>
      .ok ({ self with peer_count := self.peer_count + 1 },
           { id := freshId, peer_of := some self.id, peer_count := 0,
             buffer_id := self.buffer_id })
  | some _ => .error .runtimeError

end TextBox

/-! Concrete instances used by witnesses and counterexamples. -/

/-- A concrete live buffer holding the single line abcd, so start is (1,0)
and end is (1,4). -/
def exBuf : Buffer := ⟨["abcd"], by decide⟩

/-- A fixed Tcl index resolution for witnesses. -/
def exResolve : PyValue → Pos := fun _ => (1, 1)

/-- The dump event stream of the reconstruction example in the spec:
text ab at 1.0, tag t opens at 1.2, text cd at 1.2, tag t closes at 1.4. -/
def c1Events : List DumpEvent :=
  [⟨.text, "ab", (1, 0)⟩, ⟨.tagon, "t", (1, 2)⟩,
   ⟨.text, "cd", (1, 2)⟩, ⟨.tagoff, "t", (1, 4)⟩]

/-- An event stream whose tag t is opened but never closed. -/
def c6Events : List DumpEvent :=
  [⟨.text, "ab", (1, 0)⟩, ⟨.tagon, "t", (1, 2)⟩, ⟨.text, "cd", (1, 2)⟩]

/-- A concrete history state with tracking disabled. -/
def exHistOff : HistState := ⟨false, ["x"], "y", ["z"], 0⟩

/-- A concrete history state with tracking enabled and one undo group. -/
def exHistOn : HistState := ⟨true, ["x"], "y", [], 0⟩

/-- A concrete original (non-peer) TextBox state. -/
def exBox : TextBoxSt := ⟨7, none, 0, 3⟩

/-! Order and clamping lemmas for the position model. -/

theorem posLt_def (a b : Pos) :
    posLt a b ↔ a.1 < b.1 ∨ (a.1 = b.1 ∧ a.2 < b.2) := Iff.rfl

theorem posLe_def (a b : Pos) : posLe a b ↔ posLt a b ∨ a = b := Iff.rfl

theorem posLe_refl (a : Pos) : posLe a a := Or.inr rfl

theorem posLe_of_not_lt {a b : Pos} (h : ¬ posLt a b) : posLe b a := by
  obtain ⟨a1, a2⟩ := a
  obtain ⟨b1, b2⟩ := b
  simp only [posLt, posLe, Prod.mk.injEq] at *
  omega

theorem start_le_end (b : Buffer) : posLe startPos (endPos b) := by
  have hlen : 0 < b.lines.length := List.length_pos.mpr b.nonempty
  have hcol : 0 ≤ ((b.lines.getLast b.nonempty).length : Int) := Int.ofNat_nonneg _
  simp only [posLe, posLt, startPos, endPos, Prod.mk.injEq]
  omega

theorem clampPos_mem (b : Buffer) (p : Pos) :
    posLe startPos (clampPos b p) ∧ posLe (clampPos b p) (endPos b) := by
  unfold clampPos
  split_ifs with h1 h2
  · exact ⟨posLe_refl _, start_le_end b⟩
  · exact ⟨start_le_end b, posLe_refl _⟩
  · exact ⟨posLe_of_not_lt h1, posLe_of_not_lt h2⟩

theorem clampPos_out_of_range (b : Buffer) (p : Pos)
    (h : ¬ (posLe startPos p ∧ posLe p (endPos b))) :
    clampPos b p = startPos ∨ clampPos b p = endPos b := by
  unfold clampPos
  split_ifs with h1 h2
  · exact Or.inl rfl
  · exact Or.inr rfl
  · exact absurd ⟨posLe_of_not_lt h1, posLe_of_not_lt h2⟩ h

theorem new_ok_clamped (b : Buffer) (resolve : PyValue → Pos) (v : PyValue) (p : Pos)
    (h : TextIndex.new b resolve v = .ok p) : ∃ q, p = clampPos b q := by
  cases v with
  | int n =>
      by_cases h1 : n = 0 ∨ n = 1
      · simp [TextIndex.new, h1] at h
        exact ⟨(1, 0), h.symm⟩
      · by_cases h2 : n = -1
        · simp [TextIndex.new, h1, h2] at h
          exact ⟨endPos b, h.symm⟩
        · simp [TextIndex.new, h1, h2] at h
  | tclObj s =>
      simp [TextIndex.new] at h
      exact ⟨_, h.symm⟩
  | str s =>
      simp [TextIndex.new] at h
      exact ⟨_, h.symm⟩
  | icon s =>
      simp [TextIndex.new] at h
      exact ⟨_, h.symm⟩
  | image s =>
      simp [TextIndex.new] at h
      exact ⟨_, h.symm⟩
  | widget s =>
      simp [TextIndex.new] at h
      exact ⟨_, h.symm⟩
  | tup elems =>
      rcases elems with _ | ⟨x, _ | ⟨y, _ | ⟨z, rest⟩⟩⟩
      · simp [TextIndex.new] at h
      · simp [TextIndex.new] at h
      · simp [TextIndex.new] at h
        exact ⟨(x, y), h.symm⟩
      · simp [TextIndex.new] at h
  | float => simp [TextIndex.new] at h
  | pyNone => simp [TextIndex.new] at h
  | other => simp [TextIndex.new] at h

/-- C2: every Position obtained from construction (the raw (line, column)
path of TextIndex.__new__ or any successful single-value path) or from a
movement call (forward, back, linestart, lineend, wordstart, wordend,
which all clamp the Tcl-resolved index) satisfies start <= p <= end, and
an out-of-range raw pair silently yields start or end instead of
raising. -/
theorem c2_clamping_invariant (b : Buffer) (line col : Int) (r : Pos)
    (resolve : PyValue → Pos) (v : PyValue) (p : Pos) :
    (posLe startPos (TextIndex.newLineCol b line col) ∧
      posLe (TextIndex.newLineCol b line col) (endPos b)) ∧
    (posLe startPos (TextIndex.move b r) ∧ posLe (TextIndex.move b r) (endPos b)) ∧
    (TextIndex.new b resolve v = .ok p → posLe startPos p ∧ posLe p (endPos b)) ∧
    (¬ (posLe startPos (line, col) ∧ posLe (line, col) (endPos b)) →
      TextIndex.newLineCol b line col = startPos ∨
        TextIndex.newLineCol b line col = endPos b) := by
  refine ⟨clampPos_mem b (line, col), clampPos_mem b (clampPos b r), ?_,
    fun h => clampPos_out_of_range b (line, col) h⟩
  intro hok
  obtain ⟨q, hq⟩ := new_ok_clamped b resolve v p hok
  rw [hq]
  exact clampPos_mem b q

/-- Witness for C2 at the concrete buffer abcd: construction from the
offset 0 lands inside the bounds, and the out-of-range raw pair (9, 9)
silently becomes start or end. -/
theorem c2_clamping_invariant_witness :
    (posLe startPos ((1, 0) : Pos) ∧ posLe ((1, 0) : Pos) (endPos exBuf)) ∧
    (TextIndex.newLineCol exBuf 9 9 = startPos ∨
      TextIndex.newLineCol exBuf 9 9 = endPos exBuf) := by
  have h := c2_clamping_invariant exBuf 9 9 (0, 0) exResolve (.int 0) (1, 0)
  exact ⟨h.2.2.1 (by decide), h.2.2.2 (by decide)⟩

/-- C4 counterexample: TextRange.__new__ performs no normalization, so the
range built from the reversed pair of positions (1,3), (1,1) violates
the claimed invariant start <= end. -/
theorem c4_counterexample :
    ¬ posLe (TextRange.new exBuf (.pair (some (.pos (1, 3))) (some (.pos (1, 1))))).1
        (TextRange.new exBuf (.pair (some (.pos (1, 3))) (some (.pos (1, 1))))).2 := by
  decide

/-- C4 (amended): Range construction resolves tuple bounds through the
clamping Position constructor and defaults omitted bounds to buffer
start and end, but keeps the two bounds in the given order without
normalization, so start <= end is not established; membership p in r
holds iff r.start <= p < r.end. -/
theorem c4_membership_amended (b : Buffer) (input : RangeInput) (p : Pos)
    (sline scol eline ecol : Int) :
    (TextRange.contains (TextRange.new b input) p ↔
      posLe (TextRange.new b input).1 p ∧ posLt p (TextRange.new b input).2) ∧
    TextRange.new b (.slice none none) = (startPos, endPos b) ∧
    TextRange.new b (.pair (some (.tup sline scol)) (some (.tup eline ecol))) =
      (TextIndex.newLineCol b sline scol, TextIndex.newLineCol b eline ecol) :=
  ⟨Iff.rfl, rfl, rfl⟩

/-- C7 counterexample: constructing a Position from the single integer 5,
whose value is unsupported, fails with UnboundLocalError (the local
variables line and col are never assigned on that path), not with the
claimed TypeError. -/
theorem c7_counterexample :
    TextIndex.new exBuf exResolve (.int 5) = .error .unboundLocalError ∧
    PyErr.unboundLocalError ≠ PyErr.typeError := by
  decide

/-- C7 (amended): a single value whose TYPE is absent from the isinstance
chain of TextIndex.__new__ fails with TypeError, but unsupported VALUES
of recognized types fail differently: an int other than 0, 1 and -1
fails with UnboundLocalError, and a tuple of arity other than two fails
with ValueError. -/
theorem c7_unrecognized_amended (b : Buffer) (resolve : PyValue → Pos) (v : PyValue)
    (n : Int) (elems : List Int) :
    (unrecognizedType v = true → TextIndex.new b resolve v = .error .typeError) ∧
    (¬ (n = 0 ∨ n = 1) → n ≠ -1 →
      TextIndex.new b resolve (.int n) = .error .unboundLocalError) ∧
    (elems.length ≠ 2 → TextIndex.new b resolve (.tup elems) = .error .valueError) := by
  refine ⟨?_, ?_, ?_⟩
  · intro h
    cases v <;> simp_all [unrecognizedType, TextIndex.new]
  · intro h1 h2
    simp [TextIndex.new, h1, h2]
  · intro h
    rcases elems with _ | ⟨x, _ | ⟨y, _ | ⟨z, rest⟩⟩⟩
    · rfl
    · rfl
    · simp at h
    · rfl

/-- Witness for C7 (amended) at three concrete inputs. -/
theorem c7_unrecognized_amended_witness :
    TextIndex.new exBuf exResolve .float = .error .typeError ∧
    TextIndex.new exBuf exResolve (.int 5) = .error .unboundLocalError ∧
    TextIndex.new exBuf exResolve (.tup [1, 2, 3]) = .error .valueError := by
  have h := c7_unrecognized_amended exBuf exResolve .float 5 [1, 2, 3]
  exact ⟨h.1 (by decide), h.2.1 (by decide) (by decide), h.2.2 (by decide)⟩

/-- C9: deleting the reserved insertion-cursor mark raises the protected
mark error (RuntimeError in the source) with the mark table returned
untouched, while deleting any other name raises nothing. -/
theorem c9_protected_mark (marks : List (String × Pos)) (name : String)
    (h : name ≠ "insert") :
    TextMarks.delitem "insert" marks = (marks, some .runtimeError) ∧
    (TextMarks.delitem name marks).2 = none := by
  constructor
  · simp [TextMarks.delitem]
  · simp [TextMarks.delitem, h]

/-- Witness for C9 on a concrete two-mark table. -/
theorem c9_protected_mark_witness :
    TextMarks.delitem "insert" [("insert", ((1, 0) : Pos)), ("m", (1, 2))] =
      ([("insert", ((1, 0) : Pos)), ("m", (1, 2))], some .runtimeError) ∧
    (TextMarks.delitem "m" [("insert", ((1, 0) : Pos)), ("m", (1, 2))]).2 = none := by
  exact c9_protected_mark [("insert", (1, 0)), ("m", (1, 2))] "m" (by decide)

/-- C10: calling Peer on an original TextBox increments its peer counter
by exactly one and returns a fresh box that shares the underlying
storage and is marked as a peer of the original; calling Peer on such a
peer (or any box with a parent) raises RuntimeError and creates
nothing, so peer nesting depth never exceeds one. -/
theorem c10_peer (self : TextBoxSt) (freshId : Nat) :
    (self.peer_of = none →
      TextBox.Peer freshId self =
        .ok ({ self with peer_count := self.peer_count + 1 },
             { id := freshId, peer_of := some self.id, peer_count := 0,
               buffer_id := self.buffer_id }) ∧
      (∀ f2 : Nat, TextBox.Peer f2
          { id := freshId, peer_of := some self.id, peer_count := 0,
            buffer_id := self.buffer_id } = .error .runtimeError)) ∧
    (∀ parent, self.peer_of = some parent →
      TextBox.Peer freshId self = .error .runtimeError) := by
  constructor
  · intro h
    constructor
    · unfold TextBox.Peer
      rw [h]
    · intro f2
      rfl
  · intro parent h
    unfold TextBox.Peer
    rw [h]

/-! Search lemmas. -/

theorem findFromAux_some (pat text : List Char) (stop : Nat) :
    ∀ (fuel i j : Nat), TextBox.findFromAux pat text stop i fuel = some j →
      i ≤ j ∧ j < stop := by
  intro fuel
  induction fuel with
  | zero =>
      intro i j h
      simp [TextBox.findFromAux] at h
  | succ fuel ih =>
      intro i j h
      simp only [TextBox.findFromAux] at h
      split_ifs at h with h1 h2
      · rw [Option.some_inj] at h
        omega
      · have := ih (i + 1) j h
        omega

theorem findFrom_some (pat text : List Char) (fromIdx stop j : Nat)
    (h : TextBox.findFrom pat text fromIdx stop = some j) : fromIdx ≤ j ∧ j < stop :=
  findFromAux_some pat text stop (stop - fromIdx) fromIdx j h

theorem searchAux_fuel (pat text : List Char) (stop : Nat) :
    ∀ (f1 f2 start : Nat), stop - start ≤ f1 → stop - start ≤ f2 →
      TextBox.searchAux pat text stop f1 start = TextBox.searchAux pat text stop f2 start := by
  intro f1
  induction f1 with
  | zero =>
      intro f2 start h1 h2
      have hn : TextBox.findFrom pat text start stop = none := by
        cases hf : TextBox.findFrom pat text start stop with
        | none => rfl
        | some j =>
            have := findFrom_some pat text start stop j hf
            omega
      cases f2 with
      | zero => rfl
      | succ f2 => simp [TextBox.searchAux, hn]
  | succ f1 ih =>
      intro f2 start h1 h2
      cases f2 with
      | zero =>
          have hn : TextBox.findFrom pat text start stop = none := by
            cases hf : TextBox.findFrom pat text start stop with
            | none => rfl
            | some j =>
                have := findFrom_some pat text start stop j hf
                omega
          simp [TextBox.searchAux, hn]
      | succ f2 =>
          cases hf : TextBox.findFrom pat text start stop with
          | none => simp [TextBox.searchAux, hf]
          | some i =>
              have hb := findFrom_some pat text start stop i hf
              simp only [TextBox.searchAux, hf]
              exact congrArg _ (ih f2 (i + 1) (by omega) (by omega))

theorem search_step (pat text : List Char) (start stop i : Nat)
    (hf : TextBox.findFrom pat text start stop = some i) :
    TextBox.search pat text start stop =
      (i, pat.length) :: TextBox.search pat text (i + 1) stop := by
  have hb := findFrom_some pat text start stop i hf
  unfold TextBox.search
  obtain ⟨f, hfuel⟩ : ∃ f, stop - start = f + 1 := ⟨stop - start - 1, by omega⟩
  rw [hfuel]
  simp only [TextBox.searchAux, hf]
  congr 1
  exact searchAux_fuel pat text stop f (stop - (i + 1)) (i + 1) (by omega) (by omega)

theorem search_none (pat text : List Char) (start stop : Nat)
    (hf : TextBox.findFrom pat text start stop = none) :
    TextBox.search pat text start stop = [] := by
  unfold TextBox.search
  cases hfuel : stop - start with
  | zero => rfl
  | succ f => simp [TextBox.searchAux, hf]

theorem searchAux_bounds (pat text : List Char) (stop : Nat) :
    ∀ (fuel start : Nat), ∀ m ∈ TextBox.searchAux pat text stop fuel start,
      start ≤ m.1 ∧ m.1 < stop := by
  intro fuel
  induction fuel with
  | zero =>
      intro start m hm
      simp [TextBox.searchAux] at hm
  | succ fuel ih =>
      intro start m hm
      cases hf : TextBox.findFrom pat text start stop with
      | none => simp [TextBox.searchAux, hf] at hm
      | some i =>
          have hb := findFrom_some pat text start stop i hf
          simp only [TextBox.searchAux, hf, List.mem_cons] at hm
          rcases hm with rfl | hm
          · exact hb
          · have h2 := ih (i + 1) m hm
            omega

theorem searchAux_pairwise (pat text : List Char) (stop : Nat) :
    ∀ (fuel start : Nat),
      (TextBox.searchAux pat text stop fuel start).Pairwise (fun a b => a.1 < b.1) := by
  intro fuel
  induction fuel with
  | zero =>
      intro start
      simp [TextBox.searchAux]
  | succ fuel ih =>
      intro start
      cases hf : TextBox.findFrom pat text start stop with
      | none => simp [TextBox.searchAux, hf]
      | some i =>
          simp only [TextBox.searchAux, hf]
          refine List.Pairwise.cons ?_ (ih (i + 1))
          intro m hm
          have h2 := searchAux_bounds pat text stop fuel (i + 1) m hm
          show i < m.1
          omega

/-- C5: the search loop is resumable and terminating.  When no match
exists between the cursor and stop the yielded sequence is empty (the
generator just stops, no error); when the first match starts at offset
i, it is yielded with its matched length and the next scan starts at
exactly i + 1; consequently yielded match starts are strictly
increasing (progress even on zero-width matches) and all lie in the
half-open window from start to stop. -/
theorem c5_search_resumable (pat text : List Char) (start stop : Nat) :
    (TextBox.findFrom pat text start stop = none →
      TextBox.search pat text start stop = []) ∧
    (∀ i, TextBox.findFrom pat text start stop = some i →
      TextBox.search pat text start stop =
        (i, pat.length) :: TextBox.search pat text (i + 1) stop) ∧
    (TextBox.search pat text start stop).Pairwise (fun a b => a.1 < b.1) ∧
    (∀ m ∈ TextBox.search pat text start stop, start ≤ m.1 ∧ m.1 < stop) :=
  ⟨search_none pat text start stop,
   fun i hf => search_step pat text start stop i hf,
   searchAux_pairwise pat text stop (stop - start) start,
   fun m hm => searchAux_bounds pat text stop (stop - start) start m hm⟩

/-- Witness for C5 on the search example text: the first match of the
pattern at starts at offset 5 and the scan resumes at offset 6, and an
empty window yields no match and no error. -/
theorem c5_search_resumable_witness :
    TextBox.search "at".toList "the cat sat on the mat".toList 0 22 =
      (5, "at".toList.length) :: TextBox.search "at".toList "the cat sat on the mat".toList 6 22 ∧
    TextBox.search "at".toList "the cat sat on the mat".toList 22 22 = [] := by
  have h1 := (c5_search_resumable "at".toList "the cat sat on the mat".toList 0 22).2.1 5
    (by decide)
  have h2 := (c5_search_resumable "at".toList "the cat sat on the mat".toList 22 22).1
    (by decide)
  exact ⟨h1, h2⟩

/-! Content reconstruction lemmas. -/

theorem mem_insertAt {α : Type} (a b : α) :
    ∀ (n : Nat) (l : List α), a ∈ insertAt n b l → a = b ∨ a ∈ l := by
  intro n l
  induction l generalizing n with
  | nil =>
      cases n with
      | zero =>
          intro h
          simp [insertAt] at h
          exact Or.inl h
      | succ n =>
          intro h
          simp [insertAt] at h
          exact Or.inl h
  | cons x xs ih =>
      cases n with
      | zero =>
          intro h
          simp only [insertAt, List.mem_cons] at h
          rcases h with rfl | h
          · exact Or.inl rfl
          · exact Or.inr (List.mem_cons.mpr h)
      | succ n =>
          intro h
          simp only [insertAt, List.mem_cons] at h
          rcases h with rfl | h
          · exact Or.inr (List.mem_cons.mpr (Or.inl rfl))
          · rcases ih n h with h1 | h1
            · exact Or.inl h1
            · exact Or.inr (List.mem_cons.mpr (Or.inr h1))

theorem contentGo_span (b : Buffer) (t : String) (sp ep : Pos) :
    ∀ (evs : List DumpEvent) (s s' : DumpState),
      contentGo b evs s = .ok s' →
      ContentElem.span sp ep t ∈ s'.result →
      ContentElem.span sp ep t ∈ s.result ∨
        ∃ e ∈ evs, e.kind = EvKind.tagoff ∧ e.value = t := by
  intro evs
  induction evs with
  | nil =>
      intro s s' hok hmem
      simp only [contentGo, Except.ok.injEq] at hok
      subst hok
      exact Or.inl hmem
  | cons e es ih =>
      intro s s' hok hmem
      cases ha : addItem b s e with
      | error err => simp [contentGo, ha] at hok
      | ok s1 =>
          simp only [contentGo, ha] at hok
          rcases ih s1 s' hok hmem with hmem1 | ⟨e2, he2, hk2⟩
          · obtain ⟨k, v, idx⟩ := e
            cases k with
            | tagon =>
                simp only [addItem, Except.ok.injEq] at ha
                subst ha
                exact Or.inl hmem1
            | tagoff =>
                simp only [addItem] at ha
                cases hfind : s.unclosed.find? (fun kv => kv.1 == v) with
                | none => simp [hfind] at ha
                | some kv =>
                    obtain ⟨k2, op, ii⟩ := kv
                    rw [hfind] at ha
                    simp only [Except.ok.injEq] at ha
                    subst ha
                    rcases mem_insertAt _ _ ii s.result hmem1 with heq | hold
                    · rw [ContentElem.span.injEq] at heq
                      exact Or.inr ⟨⟨EvKind.tagoff, v, idx⟩, List.mem_cons_self _ _,
                        rfl, heq.2.2.symm⟩
                    · exact Or.inl hold
            | text =>
                simp only [addItem, Except.ok.injEq] at ha
                subst ha
                simp only [List.mem_append, List.mem_cons, List.not_mem_nil, or_false] at hmem1
                rcases hmem1 with hold | h1 | h1
                · exact Or.inl hold
                · exact absurd h1 (by simp)
                · exact absurd h1 (by simp)
            | image =>
                simp only [addItem, Except.ok.injEq] at ha
                subst ha
                simp only [List.mem_append, List.mem_cons, List.not_mem_nil, or_false] at hmem1
                rcases hmem1 with hold | h1 | h1
                · exact Or.inl hold
                · exact absurd h1 (by simp)
                · exact absurd h1 (by simp)
            | mark =>
                simp only [addItem, Except.ok.injEq] at ha
                subst ha
                simp only [List.mem_append, List.mem_cons, List.not_mem_nil, or_false] at hmem1
                rcases hmem1 with hold | h1 | h1
                · exact Or.inl hold
                · exact absurd h1 (by simp)
                · exact absurd h1 (by simp)
            | window =>
                simp only [addItem, Except.ok.injEq] at ha
                subst ha
                simp only [List.mem_append, List.mem_cons, List.not_mem_nil, or_false] at hmem1
                rcases hmem1 with hold | h1 | h1
                · exact Or.inl hold
                · exact absurd h1 (by simp)
                · exact absurd h1 (by simp)
          · exact Or.inr ⟨e2, List.mem_cons_of_mem e he2, hk2⟩

/-- C1 (evaluation at the failing input): on the example stream, the code
yields the FLATTENED five-element list whose non-tag events each
contribute a bare position and a bare value, with only the tag span
present as an actual pair at the recorded index, instead of the claimed
three-item list of (Position, Value) pairs; the Python expression
result += (index, value) extends the list rather than appending a pair,
contradicting the declared return type of TextBox.content. -/
theorem c1_content_flattened :
    content exBuf c1Events =
      .ok [ContentElem.pos (1, 0), ContentElem.txt "ab",
           ContentElem.span (1, 2) (1, 4) "t",
           ContentElem.pos (1, 2), ContentElem.txt "cd"] := by
  decide

/-- C6: a tag opened but never closed before the end of the event stream
contributes nothing to the reconstructed document: if the stream holds
no tag-close event for t, no (Range, Tag) item for t appears in the
result. -/
theorem c6_unterminated_dropped (b : Buffer) (evs : List DumpEvent) (t : String)
    (res : List ContentElem) (hok : content b evs = .ok res)
    (hno : ∀ e ∈ evs, ¬(e.kind = EvKind.tagoff ∧ e.value = t)) :
    ∀ sp ep, ContentElem.span sp ep t ∉ res := by
  intro sp ep hmem
  unfold content at hok
  cases hgo : contentGo b evs ⟨[], []⟩ with
  | error err =>
      rw [hgo] at hok
      simp [Except.map] at hok
  | ok st =>
      rw [hgo] at hok
      simp only [Except.map, Except.ok.injEq] at hok
      subst hok
      rcases contentGo_span b t sp ep evs ⟨[], []⟩ st hgo hmem with h | ⟨e, he, hk, hv⟩
      · simp at h
      · exact hno e he ⟨hk, hv⟩

/-- Witness for C6: the stream text ab, tagon t, text cd has no close for
t, and the reconstructed list indeed holds no span for t. -/
theorem c6_unterminated_dropped_witness :
    ContentElem.span (1, 2) (1, 4) "t" ∉
      [ContentElem.pos (1, 0), ContentElem.txt "ab",
       ContentElem.pos (1, 2), ContentElem.txt "cd"] :=
  c6_unterminated_dropped exBuf c6Events "t"
    [ContentElem.pos (1, 0), ContentElem.txt "ab",
     ContentElem.pos (1, 2), ContentElem.txt "cd"]
    (by decide) (by decide) (1, 2) (1, 4)

/-! History lemmas. -/

theorem undo_succ_step (n : Nat) (s s1 : HistState)
    (hc : TextHistory.callSubcommandUndo s = (s1, true)) :
    TextHistory.undo (n + 1) s = TextHistory.undo n s1 := by
  simp only [TextHistory.undo]
  rw [hc]

theorem undo_succ_stop (n : Nat) (s s1 : HistState)
    (hc : TextHistory.callSubcommandUndo s = (s1, false)) :
    TextHistory.undo (n + 1) s = s1 := by
  simp only [TextHistory.undo]
  rw [hc]

theorem redo_succ_step (n : Nat) (s s1 : HistState)
    (hc : TextHistory.callSubcommandRedo s = (s1, true)) :
    TextHistory.redo (n + 1) s = TextHistory.redo n s1 := by
  simp only [TextHistory.redo]
  rw [hc]

theorem redo_succ_stop (n : Nat) (s s1 : HistState)
    (hc : TextHistory.callSubcommandRedo s = (s1, false)) :
    TextHistory.redo (n + 1) s = s1 := by
  simp only [TextHistory.redo]
  rw [hc]

theorem undoSteps_succ_cons (k : Nat) (s : HistState) (bh : String) (rest : List String)
    (hp : s.past = bh :: rest) :
    undoSteps (k + 1) s =
      undoSteps k { s with past := rest, present := bh, future := s.present :: s.future } := by
  simp only [undoSteps]
  rw [hp]

theorem redoSteps_succ_cons (k : Nat) (s : HistState) (bh : String) (rest : List String)
    (hp : s.future = bh :: rest) :
    redoSteps (k + 1) s =
      redoSteps k { s with past := s.present :: s.past, present := bh, future := rest } := by
  simp only [redoSteps]
  rw [hp]

theorem undo_track_off (n : Nat) (s : HistState) (h : s.track = false) :
    TextHistory.undo n s = { s with warnings := s.warnings + n } := by
  induction n generalizing s with
  | zero => rfl
  | succ n ih =>
      have hc : TextHistory.callSubcommandUndo s =
          ({ s with warnings := s.warnings + 1 }, true) := by
        simp [TextHistory.callSubcommandUndo, tclEditUndo, h]
      rw [undo_succ_step n s _ hc, ih { s with warnings := s.warnings + 1 } h]
      cases s
      simp only [HistState.mk.injEq, true_and]
      omega

theorem redo_track_off (n : Nat) (s : HistState) (h : s.track = false) :
    TextHistory.redo n s = { s with warnings := s.warnings + n } := by
  induction n generalizing s with
  | zero => rfl
  | succ n ih =>
      have hc : TextHistory.callSubcommandRedo s =
          ({ s with warnings := s.warnings + 1 }, true) := by
        simp [TextHistory.callSubcommandRedo, tclEditRedo, h]
      rw [redo_succ_step n s _ hc, ih { s with warnings := s.warnings + 1 } h]
      cases s
      simp only [HistState.mk.injEq, true_and]
      omega

theorem undo_track_on (n : Nat) (s : HistState) (h : s.track = true) :
    TextHistory.undo n s = undoSteps (min n s.past.length) s := by
  induction n generalizing s with
  | zero => simp [TextHistory.undo, undoSteps]
  | succ n ih =>
      cases hp : s.past with
      | nil =>
          have hc : TextHistory.callSubcommandUndo s = (s, false) := by
            simp [TextHistory.callSubcommandUndo, tclEditUndo, h, hp]
          rw [undo_succ_stop n s s hc]
          simp [undoSteps]
      | cons bh rest =>
          have hc : TextHistory.callSubcommandUndo s =
              ({ s with past := rest, present := bh, future := s.present :: s.future },
               true) := by
            simp [TextHistory.callSubcommandUndo, tclEditUndo, h, hp]
          rw [undo_succ_step n s _ hc,
            ih { s with past := rest, present := bh, future := s.present :: s.future } h]
          simp only [List.length_cons, Nat.succ_min_succ]
          rw [undoSteps_succ_cons _ s bh rest hp]

theorem redo_track_on (n : Nat) (s : HistState) (h : s.track = true) :
    TextHistory.redo n s = redoSteps (min n s.future.length) s := by
  induction n generalizing s with
  | zero => simp [TextHistory.redo, redoSteps]
  | succ n ih =>
      cases hp : s.future with
      | nil =>
          have hc : TextHistory.callSubcommandRedo s = (s, false) := by
            simp [TextHistory.callSubcommandRedo, tclEditRedo, h, hp]
          rw [redo_succ_stop n s s hc]
          simp [redoSteps]
      | cons bh rest =>
          have hc : TextHistory.callSubcommandRedo s =
              ({ s with past := s.present :: s.past, present := bh, future := rest },
               true) := by
            simp [TextHistory.callSubcommandRedo, tclEditRedo, h, hp]
          rw [redo_succ_step n s _ hc,
            ih { s with past := s.present :: s.past, present := bh, future := rest } h]
          simp only [List.length_cons, Nat.succ_min_succ]
          rw [redoSteps_succ_cons _ s bh rest hp]

/-- C3: with history tracking disabled, undo(n) and redo(n) leave the
entire buffer and log state untouched, only incrementing the warning
counter once per attempted step (so the caller receives a non-fatal
warning); the functions return normally, raising nothing. -/
theorem c3_history_disabled (n : Nat) (s : HistState) (h : s.track = false) :
    TextHistory.undo n s = { s with warnings := s.warnings + n } ∧
    TextHistory.redo n s = { s with warnings := s.warnings + n } :=
  ⟨undo_track_off n s h, redo_track_off n s h⟩

/-- Witness for C3 at a concrete tracking-disabled state. -/
theorem c3_history_disabled_witness :
    TextHistory.undo 1 exHistOff = { exHistOff with warnings := exHistOff.warnings + 1 } ∧
    TextHistory.redo 1 exHistOff = { exHistOff with warnings := exHistOff.warnings + 1 } :=
  c3_history_disabled 1 exHistOff rfl

/-- C8: with history tracking enabled, undo(n) and redo(n) perform exactly
min(n, groups available) single-group steps and then stop; the TclError
raised at the end of the log is caught inside the loop, so the caller
sees a normal return, never an error. -/
theorem c8_undo_redo_bounded (n : Nat) (s : HistState) (h : s.track = true) :
    TextHistory.undo n s = undoSteps (min n s.past.length) s ∧
    TextHistory.redo n s = redoSteps (min n s.future.length) s :=
  ⟨undo_track_on n s h, redo_track_on n s h⟩

/-- Witness for C8: five steps requested against a log holding a single
undo group and no redo group. -/
theorem c8_undo_redo_bounded_witness :
    TextHistory.undo 5 exHistOn = undoSteps (min 5 exHistOn.past.length) exHistOn ∧
    TextHistory.redo 5 exHistOn = redoSteps (min 5 exHistOn.future.length) exHistOn :=
  c8_undo_redo_bounded 5 exHistOn rfl

/-- Witness for C10 at a concrete original box. -/
theorem c10_peer_witness :
    TextBox.Peer 9 exBox =
      .ok ({ exBox with peer_count := exBox.peer_count + 1 },
           { id := 9, peer_of := some exBox.id, peer_count := 0,
             buffer_id := exBox.buffer_id }) ∧
    TextBox.Peer 11
        { id := 9, peer_of := some exBox.id, peer_count := 0,
          buffer_id := exBox.buffer_id } = .error .runtimeError := by
  have h := (c10_peer exBox 9).1 rfl
  exact ⟨h.1, h.2 11⟩

end Tukaan
